import Mathlib

/-!
# Verification of the greymass/wallet resource-pricing and account-cache layer

Shallow embedding of the pricing stores (`powerupPrice`, `powerupPrice2`,
`rexPrice`), the account cache (`loadAccount` / `storeAccount`) and the token
key builder (`makeTokenKey`), together with proofs of the testable properties
stated in the specification.

Modelling conventions:
* JavaScript `number` arithmetic is embedded as exact rational arithmetic
  over `ℚ`.  `Math.floor` becomes `Int.floor`, `Math.ceil` becomes
  `Int.ceil`, `Math.min`/`Math.max` become `min`/`max`.
* The single transcendental sub-expression of the pricing code,
  `Math.exp(-(now - utilization_timestamp) / decay_secs)`, is abstracted as
  an explicit parameter `E : ℚ` (the value of that expression at the fixed
  current time); every property quantifies over it or instantiates it at a
  point where `exp` takes a rational value (`exp 0 = 1`).
* The on-chain curve exponent is embedded as `ℕ` (the chain publishes an
  integral exponent; `Math.pow` with a natural exponent is exact
  exponentiation).
* JavaScript truthiness guards on numbers (`if (x && ...)`) become `x ≠ 0`.
* `Asset.fromUnits(n, '4,EOS')` is represented by its integer unit count `n`.
-/

namespace Wallet

/-! ## Time/unit constants (resource store, lines 14-21) -/

/-- ms per block (`export const mspb = 200`). -/
def mspb : ℚ := 200

/-- blocks per second (`export const bps = 2`). -/
def bps : ℚ := 2

/-- blocks per day (`export const bpd = bps * 60 * 60 * 24`). -/
def bpd : ℚ := bps * 60 * 60 * 24

/-- ms per day (`export const mspd = mspb * bpd`). -/
def mspd : ℚ := mspb * bpd

/-! ## PowerUp state

Embedding of the fields of `$statePowerUp.cpu` that the two price
computations read.  `min_price` and `max_price` are on-chain `Asset`s with
precision 4: `powerupPrice` reads their integer `units`, `powerupPrice2`
reads their float `value = units / 10^4`; we store the unit counts and
derive the values.  The time-dependent factor
`Math.exp(-(now - utilization_timestamp)/decay_secs)` is abstracted as the
parameter `E` of the functions below, so `decay_secs` and
`utilization_timestamp` do not appear as fields. -/
structure CpuState where
  utilization : ℚ
  adjusted_utilization : ℚ
  weight : ℚ
  exponent : ℕ
  min_price_units : ℚ
  max_price_units : ℚ
  deriving DecidableEq

/-- `min_price.value` as read by `powerupPrice2`. -/
def CpuState.min_price_value (s : CpuState) : ℚ := s.min_price_units / 10000

/-- `max_price.value` as read by `powerupPrice2`. -/
def CpuState.max_price_value (s : CpuState) : ℚ := s.max_price_units / 10000

/-- `Math.min(Math.max(x, lo), hi)` — the clamp idiom used by both price
computations. -/
def clampQ (x lo hi : ℚ) : ℚ := min (max x lo) hi

/-! ## powerupPrice2 (resource store, lines 104-186) -/

/-- Decay-adjusted utilization computed by `powerupPrice2` (lines 128-137):
when `utilization < adjusted_utilization` the delta
`diff * Math.exp(...)` is passed through `Math.floor` and then clamped to
`[0, diff]`; otherwise `adjusted_utilization` is used unchanged.
`E` stands for the value of `Math.exp(-(now - utilization_timestamp)/decay_secs)`. -/
def decayedAdjUtilization2 (s : CpuState) (E : ℚ) : ℚ :=
  if s.utilization < s.adjusted_utilization then
    let diff := s.adjusted_utilization - s.utilization
    let delta := (⌊diff * E⌋ : ℚ)
    s.utilization + clampQ delta 0 diff
  else s.adjusted_utilization

/-- `price_integral_delta` helper of `powerupPrice2` (lines 139-152). -/
def price_integral_delta (s : CpuState) (start_utilization end_utilization : ℚ) : ℚ :=
  let coefficient := (s.max_price_value - s.min_price_value) / (s.exponent : ℚ)
  let start_u := start_utilization / s.weight
  let end_u := end_utilization / s.weight
  s.min_price_value * end_u - s.min_price_value * start_u +
    coefficient * end_u ^ s.exponent - coefficient * start_u ^ s.exponent

/-- `price_function` helper of `powerupPrice2` (lines 154-163): with
`new_exponent = exponent - 1.0`, returns `max_price` when
`new_exponent <= 0`, i.e. when the exponent is at most 1. -/
def price_function (s : CpuState) (utilization : ℚ) : ℚ :=
  if s.exponent ≤ 1 then s.max_price_value
  else
    s.min_price_value +
      (s.max_price_value - s.min_price_value) * (utilization / s.weight) ^ (s.exponent - 1)

/-- The fee computed by the body of `powerupPrice2` (lines 120-179), in
float `value` units. `shifted` is `$resourcesShifted`, `E` the decay
exponential, `m` is `$msToRent`. -/
def fee2 (s : CpuState) (shifted E m : ℚ) : ℚ :=
  let mspdAvailable := mspd * (1 - shifted / 100)
  let percentToRent := m / mspdAvailable
  let utilization_increase := s.weight * percentToRent
  let adjusted := decayedAdjUtilization2 s E
  let start_utilization := s.utilization
  let end_utilization := start_utilization + utilization_increase
  let flat :=
    if start_utilization < adjusted then
      price_function s adjusted * min utilization_increase (adjusted - start_utilization) /
        s.weight
    else 0
  let start2 := if start_utilization < adjusted then adjusted else start_utilization
  flat + (if start2 < end_utilization then price_integral_delta s start2 end_utilization else 0)

/-- The full `powerupPrice2` derived store, returning the unit count of the
produced `Asset` (`Math.ceil(fee * 10000)`, line 182).  The JS truthiness
guard `if ($msToRent && $statePowerUp && $resourcesShifted)` is embedded
as `m ≠ 0 ∧ shifted ≠ 0` over a present state. -/
def powerupPrice2_units (m : ℚ) (st : Option CpuState) (shifted E : ℚ) : ℤ :=
  match st with
  | some s => if m ≠ 0 ∧ shifted ≠ 0 then ⌈fee2 s shifted E m * 10000⌉ else 0
  | none => 0

/-! ## powerupPrice (resource store, lines 189-241) -/

/-- `utilizationBefore` of `powerupPrice` (lines 213-226): starts as
`max(utilization, adjusted_utilization) / weight` and, when
`utilization < adjusted_utilization`, is replaced by
`(utilization + clamp(diff * Math.exp(...), 0, diff)) / weight`
(no flooring of the delta here). -/
def utilizationBefore (s : CpuState) (E : ℚ) : ℚ :=
  if s.utilization < s.adjusted_utilization then
    let utilizationDiff := s.adjusted_utilization - s.utilization
    (s.utilization + clampQ (utilizationDiff * E) 0 utilizationDiff) / s.weight
  else max s.utilization s.adjusted_utilization / s.weight

/-- The estimated rental price computed by the body of `powerupPrice`
(lines 204-234), in integer units (it reads `min_price.units` and
`max_price.units`). -/
def priceRaw (s : CpuState) (shifted E m : ℚ) : ℚ :=
  let coefficient := (s.max_price_units - s.min_price_units) / (s.exponent : ℚ)
  let mspdAvailable := mspd * (1 - shifted / 100)
  let percentToRent := m / mspdAvailable
  let uBefore := utilizationBefore s E
  let uAfter := uBefore + percentToRent
  s.min_price_units * (uAfter - uBefore) +
    coefficient * (uAfter ^ s.exponent - uBefore ^ s.exponent)

/-- The full `powerupPrice` derived store, returning the unit count of the
produced `Asset` (`Math.ceil(price)`, line 237).  Its guard
`if ($statePowerUp && $resourcesShifted)` does not test `$msToRent`. -/
def powerupPrice_units (m : ℚ) (st : Option CpuState) (shifted E : ℚ) : ℤ :=
  match st with
  | some s => if shifted ≠ 0 then ⌈priceRaw s shifted E m⌉ else 0
  | none => 0

/-! ## rexPrice (resource store, lines 271-286) -/

/-- The fields of `$stateREX` read by `rexPrice` (float `value`s of the
`total_rent` and `total_unlent` assets). -/
structure RexState where
  total_rent_value : ℚ
  total_unlent_value : ℚ
  deriving DecidableEq

/-- The `rexPrice` derived store: guard
`if ($msToRent && $sampledCpuCost && $stateREX && $resourcesShifted)`,
then `msPerToken = (tokens / (totalRent.value / totalUnlent.value)) *
cpuCost * (shifted / 100)` with `tokens = 1`, returning
`(tokens / msPerToken) * msToRent`. -/
def rexPrice (m cpuCost : ℚ) (st : Option RexState) (shifted : ℚ) : ℚ :=
  match st with
  | some s =>
    if m ≠ 0 ∧ cpuCost ≠ 0 ∧ shifted ≠ 0 then
      let tokens : ℚ := 1
      let msPerToken :=
        tokens / (s.total_rent_value / s.total_unlent_value) * cpuCost * (shifted / 100)
      tokens / msPerToken * m
    else 0
  | none => 0

/-! ## Account cache (src/stores/account-provider.ts)

The persistent rows hold `Serializer.objectify(account)` — a raw JSON
object in which the two voter-info weight fields may be absent (legacy
rows; the `TODO` at lines 112-120 patches them).  A typed
`API.v1.AccountObject` always carries those fields, so the typed and raw
account shapes are modelled separately.  The opaque remainder of the
account snapshot is modelled as a `String` payload. -/

/-- Typed `voter_info` of an `API.v1.AccountObject`: the weight fields are
always present on the typed object. -/
structure VoterInfo where
  last_vote_weight : String
  proxied_vote_weight : String
  restV : String
  deriving DecidableEq

/-- Typed `API.v1.AccountObject` (the fields the cache logic touches, plus
an opaque remainder). -/
structure AccountObject where
  account_name : String
  voter_info : Option VoterInfo
  rest : String
  deriving DecidableEq

/-- Raw (objectified) `voter_info` as stored in the database: the weight
fields may be missing. -/
structure RawVoterInfo where
  last_vote_weight : Option String
  proxied_vote_weight : Option String
  restV : String
  deriving DecidableEq

/-- Raw (objectified) account as stored in the database. -/
structure RawAccount where
  account_name : String
  voter_info : Option RawVoterInfo
  rest : String
  deriving DecidableEq

/-- `Serializer.objectify(account)` (storeAccount, line 92): the typed
account serialized to its raw shape; every typed field is present. -/
def objectify (a : AccountObject) : RawAccount :=
  { account_name := a.account_name
    voter_info := a.voter_info.map fun v =>
      { last_vote_weight := some v.last_vote_weight
        proxied_vote_weight := some v.proxied_vote_weight
        restV := v.restV }
    rest := a.rest }

/-- The voter-info patch of `loadAccount` (lines 114-121): if the row has a
`voter_info` whose weight fields are missing (falsy), they are set to
`'0'`. -/
def patchVoter (r : RawAccount) : RawAccount :=
  match r.voter_info with
  | none => r
  | some v =>
    { r with
      voter_info := some
        { last_vote_weight := some (v.last_vote_weight.getD "0")
          proxied_vote_weight := some (v.proxied_vote_weight.getD "0")
          restV := v.restV } }

/-- `API.v1.AccountObject.from(row.account)` (line 122).  The typed
constructor requires the weight fields; `loadAccount` only applies it
after the patch, which guarantees they are present, so the coercion is
made total with the same `'0'` default. -/
def fromRaw (r : RawAccount) : AccountObject :=
  { account_name := r.account_name
    voter_info := r.voter_info.map fun v =>
      { last_vote_weight := v.last_vote_weight.getD "0"
        proxied_vote_weight := v.proxied_vote_weight.getD "0"
        restV := v.restV }
    rest := r.rest }

/-- A row of the `'account-cache'` object store:
`{account: Serializer.objectify(account), updated: new Date()}`.
`updated` is the timestamp in ms. -/
structure AccountRow where
  account : RawAccount
  updated : ℤ
  deriving DecidableEq

/-- The persistent key-value store, as an association list keyed by the
cache key. -/
def Db := List (String × AccountRow)

/-- `db.get('account-cache', key)`. -/
def dbGet (db : Db) (key : String) : Option AccountRow :=
  match db.find? (fun p => p.1 = key) with
  | some p => some p.2
  | none => none

/-- `db.put('account-cache', row, key)`: overwrites any prior row under
`key`. -/
def dbPut (db : Db) (key : String) (row : AccountRow) : Db :=
  (key, row) :: (db : List (String × AccountRow)).filter (fun p => ¬ p.1 = key)

/-- `maxAge` (account-provider.ts, line 12): 60 * 1000 ms. -/
def maxAge : ℤ := 60 * 1000

/-- `accountKey(name, chainId)` (lines 83-85): the template literal
`` `${chainId}-${name}` ``. -/
def accountKey (name chainId : String) : String := chainId ++ "-" ++ name

/-- `storeAccount(account, chainId)` (lines 87-97): puts
`{account: objectify(account), updated: now}` under
`accountKey(account.account_name, chainId)`. -/
def storeAccount (db : Db) (account : AccountObject) (chainId : String) (now : ℤ) : Db :=
  dbPut db (accountKey account.account_name chainId) ⟨objectify account, now⟩

/-- The value passed to the `set` callback of `loadAccount`:
`{account, stale}`. -/
structure AccountResponse where
  account : Option AccountObject
  stale : Bool
  deriving DecidableEq

/-- The observable outcome of one `loadAccount` call: the callback
invocations in order, the resulting database, and whether a network fetch
was issued. -/
structure LoadResult where
  calls : List AccountResponse
  db : Db
  didFetch : Bool

/-- `loadAccount(name, chainId, set, refresh)` (lines 99-129), with the
ambient state passed explicitly: `db` is the persistent cache, `now` the
value of `Date.now()`, and `fetched` the account the network client
would return from `get_account(name)` if a fetch is issued.  `stale`
starts `true`; when a row is found it becomes `age > maxAge` and the
callback first receives the patched cached account; when
`stale || refresh` holds a fetch is issued, the fresh account is stored
and the callback receives `{account: fetched, stale: false}`. -/
def loadAccount (db : Db) (name chainId : String) (refresh : Bool) (now : ℤ)
    (fetched : AccountObject) : LoadResult :=
  let key := accountKey name chainId
  match dbGet db key with
  | some row =>
    let age := now - row.updated
    let stale := decide (age > maxAge)
    let first : AccountResponse :=
      { account := some (fromRaw (patchVoter row.account)), stale := stale }
    if stale || refresh then
      { calls := [first, { account := some fetched, stale := false }]
        db := storeAccount db fetched chainId now
        didFetch := true }
    else
      { calls := [first], db := db, didFetch := false }
  | none =>
    { calls := [{ account := some fetched, stale := false }]
      db := storeAccount db fetched chainId now
      didFetch := true }

/-! ## makeTokenKey (src/data-syncers.ts, lines 98-102)

`[String(token.chainId), String(token.contract), String(token.name)]
   .join('-').toLowerCase()`.
Strings are embedded as `List Char`; `toLowerCase` as the ASCII
lower-casing map (the relevant domains — hex checksums, Antelope names,
symbol codes — are ASCII). -/

/-- ASCII fragment of JavaScript `String.prototype.toLowerCase`, applied
per character. -/
def jsLowerChar (c : Char) : Char :=
  if 'A' ≤ c ∧ c ≤ 'Z' then Char.ofNat (c.toNat + 32) else c

/-- `makeTokenKey(token)`: join the three components with `'-'` and
lower-case the result. -/
def makeTokenKey (chainId contract name : List Char) : List Char :=
  ((chainId ++ '-' :: contract) ++ '-' :: name).map jsLowerChar

/-! ## Helper lemmas: the persistent store -/

/-- A `put` row is found by a `get` under the same key. -/
theorem dbGet_dbPut_same (db : Db) (key : String) (row : AccountRow) :
    dbGet (dbPut db key row) key = some row := by
  simp [dbGet, dbPut, List.find?]

/-- Objectifying a typed account, patching, and re-typing is the
identity: every field the patch could fill is present after
`objectify`. -/
theorem fromRaw_patchVoter_objectify (a : AccountObject) :
    fromRaw (patchVoter (objectify a)) = a := by
  cases a with
  | mk nm vi rest =>
    cases vi with
    | none => rfl
    | some v => rfl

/-! ## Helper lemmas: pricing positivity and monotonicity -/

theorem mspd_pos : 0 < mspd := by norm_num [mspd, mspb, bpd, bps]

theorem mspdAvailable_pos {shifted : ℚ} (h : shifted < 100) :
    0 < mspd * (1 - shifted / 100) := by
  have h1 : 0 < 1 - shifted / 100 := by linarith
  exact mul_pos mspd_pos h1

theorem clampQ_nonneg {x hi : ℚ} (hhi : 0 ≤ hi) : 0 ≤ clampQ x 0 hi :=
  le_min (le_max_right x 0) hhi

theorem clampQ_le {x hi : ℚ} : clampQ x 0 hi ≤ hi := min_le_right _ _

/-- The decay-adjusted utilization of `powerupPrice2` never drops below the
raw utilization nor below 0. -/
theorem decayedAdjUtilization2_nonneg (s : CpuState) (E : ℚ)
    (hU : 0 ≤ s.utilization) (hUa : 0 ≤ s.adjusted_utilization) :
    0 ≤ decayedAdjUtilization2 s E := by
  simp only [decayedAdjUtilization2]
  split
  case isTrue h =>
    have : 0 ≤ clampQ (⌊(s.adjusted_utilization - s.utilization) * E⌋ : ℚ) 0
        (s.adjusted_utilization - s.utilization) := clampQ_nonneg (by linarith)
    linarith
  case isFalse h => exact hUa

theorem min_price_value_nonneg (s : CpuState) (hmin : 0 ≤ s.min_price_units) :
    0 ≤ s.min_price_value :=
  div_nonneg hmin (by norm_num)

theorem price_value_sub_nonneg (s : CpuState)
    (hmm : s.min_price_units ≤ s.max_price_units) :
    0 ≤ s.max_price_value - s.min_price_value := by
  unfold CpuState.max_price_value CpuState.min_price_value
  have h : 0 ≤ (s.max_price_units - s.min_price_units) / 10000 :=
    div_nonneg (by linarith) (by norm_num)
  have heq : (s.max_price_units - s.min_price_units) / 10000 =
      s.max_price_units / 10000 - s.min_price_units / 10000 := by ring
  linarith [heq ▸ h]

theorem price_function_nonneg (s : CpuState) (u : ℚ)
    (hmin : 0 ≤ s.min_price_units) (hmm : s.min_price_units ≤ s.max_price_units)
    (hu : 0 ≤ u) (hW : 0 < s.weight) :
    0 ≤ price_function s u := by
  have h0 := min_price_value_nonneg s hmin
  have h1 := price_value_sub_nonneg s hmm
  unfold price_function
  split
  · linarith
  · have h2 : (0:ℚ) ≤ (u / s.weight) ^ (s.exponent - 1) :=
      pow_nonneg (div_nonneg hu hW.le) _
    nlinarith

/-- The coefficient `(max_price - min_price) / exponent` is nonnegative (in
value units). -/
theorem coefficient_value_nonneg (s : CpuState)
    (hmm : s.min_price_units ≤ s.max_price_units) :
    0 ≤ (s.max_price_value - s.min_price_value) / (s.exponent : ℚ) :=
  div_nonneg (price_value_sub_nonneg s hmm) (Nat.cast_nonneg _)

/-- `price_integral_delta` is monotone in its upper end over nonnegative
utilizations. -/
theorem price_integral_delta_mono (s : CpuState) {x y₁ y₂ : ℚ}
    (hmin : 0 ≤ s.min_price_units) (hmm : s.min_price_units ≤ s.max_price_units)
    (hW : 0 < s.weight) (hx : 0 ≤ x) (h1 : x ≤ y₁) (h2 : y₁ ≤ y₂) :
    price_integral_delta s x y₁ ≤ price_integral_delta s x y₂ := by
  have h0 := min_price_value_nonneg s hmin
  have hC := coefficient_value_nonneg s hmm
  have hy1 : 0 ≤ y₁ / s.weight := div_nonneg (le_trans hx h1) hW.le
  have hdiv : y₁ / s.weight ≤ y₂ / s.weight := by gcongr
  have hpow : (y₁ / s.weight) ^ s.exponent ≤ (y₂ / s.weight) ^ s.exponent :=
    pow_le_pow_left₀ hy1 hdiv _
  have hm1 : s.min_price_value * (y₁ / s.weight) ≤ s.min_price_value * (y₂ / s.weight) :=
    mul_le_mul_of_nonneg_left hdiv h0
  have hm2 : (s.max_price_value - s.min_price_value) / (s.exponent : ℚ) *
      (y₁ / s.weight) ^ s.exponent ≤
      (s.max_price_value - s.min_price_value) / (s.exponent : ℚ) *
      (y₂ / s.weight) ^ s.exponent :=
    mul_le_mul_of_nonneg_left hpow hC
  simp only [price_integral_delta]
  linarith

/-- `price_integral_delta` over a nonnegative, increasing range is
nonnegative. -/
theorem price_integral_delta_nonneg (s : CpuState) {x y : ℚ}
    (hmin : 0 ≤ s.min_price_units) (hmm : s.min_price_units ≤ s.max_price_units)
    (hW : 0 < s.weight) (hx : 0 ≤ x) (hxy : x ≤ y) :
    0 ≤ price_integral_delta s x y := by
  have h := price_integral_delta_mono s hmin hmm hW hx le_rfl hxy
  have hzero : price_integral_delta s x x = 0 := by
    simp only [price_integral_delta]
    ring
  linarith

/-- The integral tail of `fee2` is monotone in the utilization increase. -/
theorem fee2_tail_mono (s : CpuState) {st2 inc₁ inc₂ : ℚ}
    (hmin : 0 ≤ s.min_price_units) (hmm : s.min_price_units ≤ s.max_price_units)
    (hW : 0 < s.weight) (hst2 : 0 ≤ st2) (hi : inc₁ ≤ inc₂) :
    (if st2 < s.utilization + inc₁ then
      price_integral_delta s st2 (s.utilization + inc₁) else 0) ≤
    (if st2 < s.utilization + inc₂ then
      price_integral_delta s st2 (s.utilization + inc₂) else 0) := by
  split_ifs with h1 h2 h2
  · exact price_integral_delta_mono s hmin hmm hW hst2 h1.le (by linarith)
  · exact absurd (lt_of_lt_of_le h1 (by linarith)) h2
  · exact price_integral_delta_nonneg s hmin hmm hW hst2 h2.le
  · exact le_rfl

/-- The integral tail of `fee2` is nonnegative. -/
theorem fee2_tail_nonneg (s : CpuState) {st2 inc : ℚ}
    (hmin : 0 ≤ s.min_price_units) (hmm : s.min_price_units ≤ s.max_price_units)
    (hW : 0 < s.weight) (hst2 : 0 ≤ st2) :
    0 ≤ if st2 < s.utilization + inc then
      price_integral_delta s st2 (s.utilization + inc) else 0 := by
  split_ifs with h1
  · exact price_integral_delta_nonneg s hmin hmm hW hst2 h1.le
  · exact le_rfl

/-- `fee2` unfolded to its zeta-reduced form. -/
theorem fee2_eq (s : CpuState) (shifted E m : ℚ) :
    fee2 s shifted E m =
      (if s.utilization < decayedAdjUtilization2 s E then
        price_function s (decayedAdjUtilization2 s E) *
          min (s.weight * (m / (mspd * (1 - shifted / 100))))
            (decayedAdjUtilization2 s E - s.utilization) / s.weight
      else 0) +
      (if (if s.utilization < decayedAdjUtilization2 s E then decayedAdjUtilization2 s E
          else s.utilization) <
          s.utilization + s.weight * (m / (mspd * (1 - shifted / 100))) then
        price_integral_delta s
          (if s.utilization < decayedAdjUtilization2 s E then decayedAdjUtilization2 s E
            else s.utilization)
          (s.utilization + s.weight * (m / (mspd * (1 - shifted / 100))))
      else 0) := rfl

/-- The fee computed by `powerupPrice2` is monotone in the requested
duration. -/
theorem fee2_mono (s : CpuState) (shifted E : ℚ) {m₁ m₂ : ℚ}
    (hU : 0 ≤ s.utilization) (hUa : 0 ≤ s.adjusted_utilization)
    (hW : 0 < s.weight) (hmin : 0 ≤ s.min_price_units)
    (hmm : s.min_price_units ≤ s.max_price_units)
    (hsh : shifted < 100) (hm1 : 0 ≤ m₁) (hm : m₁ ≤ m₂) :
    fee2 s shifted E m₁ ≤ fee2 s shifted E m₂ := by
  have hav := mspdAvailable_pos hsh
  have hadj := decayedAdjUtilization2_nonneg s E hU hUa
  have hP : 0 ≤ price_function s (decayedAdjUtilization2 s E) :=
    price_function_nonneg s _ hmin hmm hadj hW
  have hinc : s.weight * (m₁ / (mspd * (1 - shifted / 100))) ≤
      s.weight * (m₂ / (mspd * (1 - shifted / 100))) := by gcongr
  rw [fee2_eq, fee2_eq]
  apply add_le_add
  · by_cases hc : s.utilization < decayedAdjUtilization2 s E
    · simp only [if_pos hc]
      have hmin' : min (s.weight * (m₁ / (mspd * (1 - shifted / 100))))
          (decayedAdjUtilization2 s E - s.utilization) ≤
          min (s.weight * (m₂ / (mspd * (1 - shifted / 100))))
            (decayedAdjUtilization2 s E - s.utilization) := min_le_min hinc le_rfl
      have hnum := mul_le_mul_of_nonneg_left hmin' hP
      rw [div_eq_mul_inv, div_eq_mul_inv]
      exact mul_le_mul_of_nonneg_right hnum (inv_nonneg.2 hW.le)
    · simp only [if_neg hc]
      exact le_rfl
  · by_cases hc : s.utilization < decayedAdjUtilization2 s E
    · simp only [if_pos hc]
      exact fee2_tail_mono s hmin hmm hW hadj hinc
    · simp only [if_neg hc]
      exact fee2_tail_mono s hmin hmm hW hU hinc

/-- The fee computed by `powerupPrice2` is nonnegative for a nonnegative
requested duration. -/
theorem fee2_nonneg (s : CpuState) (shifted E : ℚ) {m : ℚ}
    (hU : 0 ≤ s.utilization) (hUa : 0 ≤ s.adjusted_utilization)
    (hW : 0 < s.weight) (hmin : 0 ≤ s.min_price_units)
    (hmm : s.min_price_units ≤ s.max_price_units)
    (hsh : shifted < 100) (hm : 0 ≤ m) :
    0 ≤ fee2 s shifted E m := by
  have hav := mspdAvailable_pos hsh
  have hadj := decayedAdjUtilization2_nonneg s E hU hUa
  have hP : 0 ≤ price_function s (decayedAdjUtilization2 s E) :=
    price_function_nonneg s _ hmin hmm hadj hW
  have hinc : 0 ≤ s.weight * (m / (mspd * (1 - shifted / 100))) :=
    mul_nonneg hW.le (div_nonneg hm hav.le)
  rw [fee2_eq]
  apply add_nonneg
  · by_cases hc : s.utilization < decayedAdjUtilization2 s E
    · simp only [if_pos hc]
      exact div_nonneg (mul_nonneg hP (le_min hinc (by linarith))) hW.le
    · simp only [if_neg hc]
      exact le_rfl
  · by_cases hc : s.utilization < decayedAdjUtilization2 s E
    · simp only [if_pos hc]
      exact fee2_tail_nonneg s hmin hmm hW hadj
    · simp only [if_neg hc]
      exact fee2_tail_nonneg s hmin hmm hW hU

/-- `utilizationBefore` of `powerupPrice` is nonnegative. -/
theorem utilizationBefore_nonneg (s : CpuState) (E : ℚ)
    (hU : 0 ≤ s.utilization) (hUa : 0 ≤ s.adjusted_utilization)
    (hW : 0 < s.weight) :
    0 ≤ utilizationBefore s E := by
  simp only [utilizationBefore]
  split
  case isTrue h =>
    have hcl : 0 ≤ clampQ ((s.adjusted_utilization - s.utilization) * E) 0
        (s.adjusted_utilization - s.utilization) := clampQ_nonneg (by linarith)
    exact div_nonneg (by linarith) hW.le
  case isFalse h =>
    exact div_nonneg (le_max_of_le_left hU) hW.le

/-- `priceRaw` unfolded to its zeta-reduced form. -/
theorem priceRaw_eq (s : CpuState) (shifted E m : ℚ) :
    priceRaw s shifted E m =
      s.min_price_units *
        (utilizationBefore s E + m / (mspd * (1 - shifted / 100)) -
          utilizationBefore s E) +
      (s.max_price_units - s.min_price_units) / (s.exponent : ℚ) *
        ((utilizationBefore s E + m / (mspd * (1 - shifted / 100))) ^ s.exponent -
          utilizationBefore s E ^ s.exponent) := rfl

/-- `priceRaw` rewritten into a sum of separately monotone terms. -/
theorem priceRaw_key (s : CpuState) (ub r : ℚ) :
    s.min_price_units * (ub + r - ub) +
      (s.max_price_units - s.min_price_units) / (s.exponent : ℚ) *
        ((ub + r) ^ s.exponent - ub ^ s.exponent) =
      s.min_price_units * r +
        (s.max_price_units - s.min_price_units) / (s.exponent : ℚ) * (ub + r) ^ s.exponent -
        (s.max_price_units - s.min_price_units) / (s.exponent : ℚ) * ub ^ s.exponent := by
  ring

/-- The price computed by `powerupPrice` is monotone in the requested
duration. -/
theorem priceRaw_mono (s : CpuState) (shifted E : ℚ) {m₁ m₂ : ℚ}
    (hU : 0 ≤ s.utilization) (hUa : 0 ≤ s.adjusted_utilization)
    (hW : 0 < s.weight) (hmin : 0 ≤ s.min_price_units)
    (hmm : s.min_price_units ≤ s.max_price_units)
    (hsh : shifted < 100) (hm1 : 0 ≤ m₁) (hm : m₁ ≤ m₂) :
    priceRaw s shifted E m₁ ≤ priceRaw s shifted E m₂ := by
  have hav := mspdAvailable_pos hsh
  have hub := utilizationBefore_nonneg s E hU hUa hW
  have hr0 : 0 ≤ m₁ / (mspd * (1 - shifted / 100)) := div_nonneg hm1 hav.le
  have hr : m₁ / (mspd * (1 - shifted / 100)) ≤ m₂ / (mspd * (1 - shifted / 100)) := by
    gcongr
  have hC : 0 ≤ (s.max_price_units - s.min_price_units) / (s.exponent : ℚ) :=
    div_nonneg (by linarith) (Nat.cast_nonneg _)
  have hpow : (utilizationBefore s E + m₁ / (mspd * (1 - shifted / 100))) ^ s.exponent ≤
      (utilizationBefore s E + m₂ / (mspd * (1 - shifted / 100))) ^ s.exponent :=
    pow_le_pow_left₀ (by linarith) (by linarith) _
  have h1 := mul_le_mul_of_nonneg_left hpow hC
  have h2 := mul_le_mul_of_nonneg_left hr hmin
  rw [priceRaw_eq, priceRaw_eq, priceRaw_key, priceRaw_key]
  linarith

/-- The price computed by `powerupPrice` is nonnegative for a nonnegative
requested duration. -/
theorem priceRaw_nonneg (s : CpuState) (shifted E : ℚ) {m : ℚ}
    (hU : 0 ≤ s.utilization) (hUa : 0 ≤ s.adjusted_utilization)
    (hW : 0 < s.weight) (hmin : 0 ≤ s.min_price_units)
    (hmm : s.min_price_units ≤ s.max_price_units)
    (hsh : shifted < 100) (hm : 0 ≤ m) :
    0 ≤ priceRaw s shifted E m := by
  have hav := mspdAvailable_pos hsh
  have hub := utilizationBefore_nonneg s E hU hUa hW
  have hr0 : 0 ≤ m / (mspd * (1 - shifted / 100)) := div_nonneg hm hav.le
  have hC : 0 ≤ (s.max_price_units - s.min_price_units) / (s.exponent : ℚ) :=
    div_nonneg (by linarith) (Nat.cast_nonneg _)
  have hpow : utilizationBefore s E ^ s.exponent ≤
      (utilizationBefore s E + m / (mspd * (1 - shifted / 100))) ^ s.exponent :=
    pow_le_pow_left₀ hub (by linarith) _
  have h1 := mul_le_mul_of_nonneg_left hpow hC
  have h2 := mul_nonneg hmin hr0
  rw [priceRaw_eq, priceRaw_key]
  linarith

/-! ## Claim theorems -/

/-- Claim C1: for every fixed PowerUp `ResourceState` snapshot (a
well-formed snapshot: nonnegative utilizations, positive weight,
`0 ≤ min_price ≤ max_price`), fixed resource-shift ratio (below the 100%
that would zero the available capacity) and fixed current time (hence
fixed decay factor `E`), the PowerUp rental price is monotonically
non-decreasing in the requested duration, for both the `powerupPrice2`
and the `powerupPrice` computations: `0 ≤ m₁ ≤ m₂` implies
`price(m₁) ≤ price(m₂)`. -/
theorem powerupPriceMonotone (s : CpuState) (shifted E : ℚ) {m₁ m₂ : ℚ}
    (hU : 0 ≤ s.utilization) (hUa : 0 ≤ s.adjusted_utilization)
    (hW : 0 < s.weight) (hmin : 0 ≤ s.min_price_units)
    (hmm : s.min_price_units ≤ s.max_price_units)
    (hsh0 : 0 ≤ shifted) (hsh : shifted < 100)
    (hm1 : 0 ≤ m₁) (hm : m₁ ≤ m₂) :
    powerupPrice2_units m₁ (some s) shifted E ≤ powerupPrice2_units m₂ (some s) shifted E ∧
    powerupPrice_units m₁ (some s) shifted E ≤ powerupPrice_units m₂ (some s) shifted E := by
  constructor
  · simp only [powerupPrice2_units]
    by_cases hshz : shifted = 0
    · simp [hshz]
    · by_cases hm1z : m₁ = 0
      · rw [if_neg (by simp [hm1z])]
        by_cases hm2z : m₂ = 0
        · rw [if_neg (by simp [hm2z])]
        · rw [if_pos ⟨hm2z, hshz⟩]
          have hf : 0 ≤ fee2 s shifted E m₂ * 10000 := by
            have := fee2_nonneg s shifted E hU hUa hW hmin hmm hsh (hm1.trans hm)
            linarith
          exact_mod_cast Int.ceil_nonneg hf
      · have hm2z : m₂ ≠ 0 := by
          intro h
          exact hm1z (le_antisymm (h ▸ hm) hm1)
        rw [if_pos ⟨hm1z, hshz⟩, if_pos ⟨hm2z, hshz⟩]
        have hfee := fee2_mono s shifted E hU hUa hW hmin hmm hsh hm1 hm
        exact Int.ceil_le_ceil (by linarith)
  · simp only [powerupPrice_units]
    by_cases hshz : shifted = 0
    · simp [hshz]
    · rw [if_pos hshz, if_pos hshz]
      exact Int.ceil_le_ceil (priceRaw_mono s shifted E hU hUa hW hmin hmm hsh hm1 hm)

/-- Concrete instance of claim C1's theorem: renting 1 ms costs no more
than renting 2 ms at a sample snapshot. -/
theorem powerupPriceMonotoneWitness :
    powerupPrice2_units 1 (some ⟨0, 0, 1000000, 2, 100, 10000⟩) 50 1 ≤
      powerupPrice2_units 2 (some ⟨0, 0, 1000000, 2, 100, 10000⟩) 50 1 ∧
    powerupPrice_units 1 (some ⟨0, 0, 1000000, 2, 100, 10000⟩) 50 1 ≤
      powerupPrice_units 2 (some ⟨0, 0, 1000000, 2, 100, 10000⟩) 50 1 :=
  powerupPriceMonotone ⟨0, 0, 1000000, 2, 100, 10000⟩ 50 1 (by norm_num) (by norm_num)
    (by norm_num) (by norm_num) (by norm_num) (by norm_num) (by norm_num) (by norm_num)
    (by norm_num)

/-- Claim C6: whenever the pricing paths actually compute a fee (guards
pass), the returned unit count is the exact (rational-arithmetic) curve
fee rounded up to the smallest indivisible unit: the computed price is at
least the exact fee expressed in units and exceeds it by strictly less
than one unit, for both `powerupPrice2` (fee in token values, scaled by
10^4) and `powerupPrice` (fee directly in units); pricing never
under-charges.  (Floating-point rounding of the JS evaluation itself is
outside this exact-arithmetic embedding.) -/
theorem powerupPriceCeilBounds (s : CpuState) (shifted E m : ℚ)
    (hm : m ≠ 0) (hsh : shifted ≠ 0) :
    (fee2 s shifted E m * 10000 ≤ (powerupPrice2_units m (some s) shifted E : ℚ) ∧
      ((powerupPrice2_units m (some s) shifted E : ℚ) < fee2 s shifted E m * 10000 + 1)) ∧
    (priceRaw s shifted E m ≤ (powerupPrice_units m (some s) shifted E : ℚ) ∧
      ((powerupPrice_units m (some s) shifted E : ℚ) < priceRaw s shifted E m + 1)) := by
  simp only [powerupPrice2_units, powerupPrice_units, if_pos (And.intro hm hsh), if_pos hsh]
  exact ⟨⟨Int.le_ceil _, Int.ceil_lt_add_one _⟩, Int.le_ceil _, Int.ceil_lt_add_one _⟩

/-- Concrete instance of claim C6's theorem at a sample snapshot. -/
theorem powerupPriceCeilBoundsWitness :
    (fee2 ⟨0, 0, 1000000, 2, 100, 10000⟩ 50 1 1 * 10000 ≤
      (powerupPrice2_units 1 (some ⟨0, 0, 1000000, 2, 100, 10000⟩) 50 1 : ℚ) ∧
      ((powerupPrice2_units 1 (some ⟨0, 0, 1000000, 2, 100, 10000⟩) 50 1 : ℚ) <
        fee2 ⟨0, 0, 1000000, 2, 100, 10000⟩ 50 1 1 * 10000 + 1)) ∧
    (priceRaw ⟨0, 0, 1000000, 2, 100, 10000⟩ 50 1 1 ≤
      (powerupPrice_units 1 (some ⟨0, 0, 1000000, 2, 100, 10000⟩) 50 1 : ℚ) ∧
      ((powerupPrice_units 1 (some ⟨0, 0, 1000000, 2, 100, 10000⟩) 50 1 : ℚ) <
        priceRaw ⟨0, 0, 1000000, 2, 100, 10000⟩ 50 1 1 + 1)) :=
  powerupPriceCeilBounds ⟨0, 0, 1000000, 2, 100, 10000⟩ 50 1 1 (by norm_num) (by norm_num)

/-- Claim C4, counterexample: at the spec's scenario (weight `10^6`,
min price 100 units, max price 10000 units, exponent 2, utilization and
adjusted utilization 0, resource-shift ratio 0, `msToRent = 1`), both
derived stores publish price 0, not a price strictly greater than 0: the
JS truthiness guard `if (... && $resourcesShifted)` treats the
legitimate ratio value 0 like missing data. -/
theorem powerupScenarioGuardCounterexample :
    powerupPrice2_units 1 (some ⟨0, 0, 1000000, 2, 100, 10000⟩) 0 1 = 0 ∧
    powerupPrice_units 1 (some ⟨0, 0, 1000000, 2, 100, 10000⟩) 0 1 = 0 := by
  constructor <;> decide

/-- Claim C4 as amended: at the spec's scenario state the underlying fee
computations (the store bodies behind the truthiness guard) price the
1 ms rental strictly between 0 and `max_price` (in units), for both
implementations; only the published store value is zeroed by the guard on
the 0 shift ratio. -/
theorem powerupScenarioFeeBounds :
    (0 < (⌈fee2 ⟨0, 0, 1000000, 2, 100, 10000⟩ 0 1 1 * 10000⌉ : ℤ) ∧
      (⌈fee2 ⟨0, 0, 1000000, 2, 100, 10000⟩ 0 1 1 * 10000⌉ : ℤ) < 10000) ∧
    (0 < (⌈priceRaw ⟨0, 0, 1000000, 2, 100, 10000⟩ 0 1 1⌉ : ℤ) ∧
      (⌈priceRaw ⟨0, 0, 1000000, 2, 100, 10000⟩ 0 1 1⌉ : ℤ) < 10000) := by
  norm_num [fee2_eq, priceRaw_eq, decayedAdjUtilization2, utilizationBefore,
    price_integral_delta, price_function, CpuState.min_price_value, CpuState.max_price_value,
    clampQ, mspd, mspb, bpd, bps, min_def]
  rw [show (10000 : ℤ) = 9999 + 1 by norm_num, Int.lt_add_one_iff, Int.ceil_le]
  norm_num

/-- Follows the spec's words for claim C7: the claimed decay-adjusted
utilization `U + clamp(diff * exp(-(now - utilization_timestamp)/τ), 0, diff)`
with `diff = Ua - U`, the exponential abstracted as `E` — no flooring of
the delta. -/
def specDecayedAdjUtilization (s : CpuState) (E : ℚ) : ℚ :=
  if s.utilization < s.adjusted_utilization then
    let diff := s.adjusted_utilization - s.utilization
    s.utilization + clampQ (diff * E) 0 diff
  else s.adjusted_utilization

/-- Claim C7, counterexample: `powerupPrice2` floors the decayed delta
(`Math.floor(diff * Math.exp(...))`, line 132) before clamping, so its
decay-adjusted utilization differs from the claim's un-floored formula
whenever `diff * E` is not an integer: with `U = 0`, `Ua = 1` and decay
factor `E = 1/2` the code yields `0 + clamp(⌊1/2⌋, 0, 1) = 0` while the
claimed formula yields `1/2`. -/
theorem decayAdjustmentFloorCounterexample :
    decayedAdjUtilization2 ⟨0, 1, 5, 2, 0, 10000⟩ (1/2) ≠
      specDecayedAdjUtilization ⟨0, 1, 5, 2, 0, 10000⟩ (1/2) := by
  norm_num [decayedAdjUtilization2, specDecayedAdjUtilization, clampQ, min_def, max_def]

/-- Claim C7 as amended: when `U < Ua`, `powerupPrice2` uses
`U + clamp(⌊diff * exp(...)⌋, 0, diff)` (the delta floored to an
integer), while `powerupPrice` uses exactly the claim's formula
`(U + clamp(diff * exp(...), 0, diff))` (normalized by weight); and when
`U = Ua` the decay-adjustment step is a no-op in both (the clamped delta
is 0). -/
theorem decayAdjustmentFormulas (s : CpuState) (E : ℚ) :
    (s.utilization < s.adjusted_utilization →
      decayedAdjUtilization2 s E =
        s.utilization +
          clampQ (⌊(s.adjusted_utilization - s.utilization) * E⌋ : ℚ) 0
            (s.adjusted_utilization - s.utilization) ∧
      utilizationBefore s E =
        (s.utilization +
          clampQ ((s.adjusted_utilization - s.utilization) * E) 0
            (s.adjusted_utilization - s.utilization)) / s.weight) ∧
    (s.utilization = s.adjusted_utilization →
      decayedAdjUtilization2 s E = s.adjusted_utilization ∧
      utilizationBefore s E = s.adjusted_utilization / s.weight ∧
      clampQ ((s.adjusted_utilization - s.utilization) * E) 0
        (s.adjusted_utilization - s.utilization) = 0) := by
  constructor
  · intro h
    constructor
    · simp only [decayedAdjUtilization2, if_pos h]
    · simp only [utilizationBefore, if_pos h]
  · intro h
    have hnot : ¬ s.utilization < s.adjusted_utilization := by rw [h]; exact lt_irrefl _
    refine ⟨?_, ?_, ?_⟩
    · simp only [decayedAdjUtilization2, if_neg hnot]
    · simp only [utilizationBefore, h, if_neg (lt_irrefl s.adjusted_utilization), max_self]
    · rw [← h, sub_self, zero_mul]
      simp [clampQ]

/-- Concrete instances of claim C7's amended theorem: the decayed branch
at `U = 0 < 1 = Ua`, `E = 1/2` (code value 0, `powerupPrice` per-weight
value `(1/2)/5`), and the no-op branch at `U = Ua = 3`. -/
theorem decayAdjustmentFormulasWitness :
    decayedAdjUtilization2 ⟨0, 1, 5, 2, 0, 10000⟩ (1/2) =
      0 + clampQ ((⌊(1 - 0 : ℚ) * (1/2)⌋ : ℚ)) 0 (1 - 0) ∧
    utilizationBefore ⟨0, 1, 5, 2, 0, 10000⟩ (1/2) =
      (0 + clampQ ((1 - 0 : ℚ) * (1/2)) 0 (1 - 0)) / 5 ∧
    decayedAdjUtilization2 ⟨3, 3, 5, 2, 0, 10000⟩ (1/2) = 3 := by
  have h1 := (decayAdjustmentFormulas ⟨0, 1, 5, 2, 0, 10000⟩ (1/2)).1 (by norm_num)
  have h2 := (decayAdjustmentFormulas ⟨3, 3, 5, 2, 0, 10000⟩ (1/2)).2 rfl
  exact ⟨h1.1, h1.2, h2.1⟩

/-- Claim C3, counterexample: the two price implementations disagree.
State: `U = 0`, `Ua = 2 = weight`, exponent 2, `min_price = 0`,
`max_price = 10000` units, shift ratio 50, and current time equal to
`utilization_timestamp` so that the decay factor is exactly
`exp 0 = 1` in both computations; renting `8 640 000` ms (half the
available capacity): `powerupPrice2` charges the congested sub-range at
the flat spot price (5000 units) while `powerupPrice` integrates the
curve from the decayed utilization (6250 units). -/
theorem powerupPricesDifferCounterexample :
    powerupPrice2_units 8640000 (some ⟨0, 2, 2, 2, 0, 10000⟩) 50 1 ≠
      powerupPrice_units 8640000 (some ⟨0, 2, 2, 2, 0, 10000⟩) 50 1 := by
  norm_num [powerupPrice2_units, powerupPrice_units, fee2_eq, priceRaw_eq,
    decayedAdjUtilization2, utilizationBefore, price_integral_delta, price_function,
    CpuState.min_price_value, CpuState.max_price_value, clampQ, mspd, mspb, bpd, bps,
    min_def, max_def]

/-- Claim C3 as amended: the two implementations agree whenever
`utilization ≥ adjusted_utilization` (no pending congestion surcharge,
so the decay branch and the flat-price sub-range are inactive in both);
in general (when `utilization < adjusted_utilization`) they differ, as
the counterexample shows. -/
theorem powerupPricesAgreeNoSurcharge (s : CpuState) (shifted E₂ E m : ℚ)
    (hW : 0 < s.weight) (hUa : s.adjusted_utilization ≤ s.utilization)
    (hsh0 : 0 ≤ shifted) (hsh : shifted < 100) (hm : 0 < m) :
    powerupPrice2_units m (some s) shifted E₂ = powerupPrice_units m (some s) shifted E := by
  by_cases hshz : shifted = 0
  · simp [powerupPrice2_units, powerupPrice_units, hshz]
  · have hav := mspdAvailable_pos hsh
    have hnot : ¬ s.utilization < s.adjusted_utilization := not_lt.mpr hUa
    have hadj2 : decayedAdjUtilization2 s E₂ = s.adjusted_utilization := by
      simp only [decayedAdjUtilization2, if_neg hnot]
    have hub : utilizationBefore s E = s.utilization / s.weight := by
      simp only [utilizationBefore, if_neg hnot, max_eq_left hUa]
    have hinc : 0 < s.weight * (m / (mspd * (1 - shifted / 100))) :=
      mul_pos hW (div_pos hm hav)
    simp only [powerupPrice2_units, powerupPrice_units,
      if_pos (And.intro (ne_of_gt hm) hshz), if_pos hshz]
    congr 1
    rw [fee2_eq, priceRaw_eq, hadj2, hub]
    simp only [if_neg hnot]
    rw [if_pos (lt_add_of_pos_right s.utilization hinc), zero_add]
    simp only [price_integral_delta, CpuState.min_price_value, CpuState.max_price_value]
    have hsplit : (s.utilization + s.weight * (m / (mspd * (1 - shifted / 100)))) / s.weight =
        s.utilization / s.weight + m / (mspd * (1 - shifted / 100)) := by
      field_simp
      ring
    rw [hsplit]
    ring

/-- Concrete instance of claim C3's amended theorem: with
`utilization = 5 ≥ 3 = adjusted_utilization` the two stores agree (even
under different decay factors, which are unused on this branch). -/
theorem powerupPricesAgreeNoSurchargeWitness :
    powerupPrice2_units 1 (some ⟨5, 3, 10, 2, 100, 10000⟩) 50 (1/3) =
      powerupPrice_units 1 (some ⟨5, 3, 10, 2, 100, 10000⟩) 50 (2/3) :=
  powerupPricesAgreeNoSurcharge ⟨5, 3, 10, 2, 100, 10000⟩ 50 (1/3) (2/3) 1
    (by norm_num) (by norm_num) (by norm_num) (by norm_num) (by norm_num)

/-- Claim C9: with all guard inputs nonzero, the REX price equals
`msToRent / msPerToken` where
`msPerToken = (1/(totalRent/totalUnlent)) * sampledCpuCost * (shifted/100)`,
and the price scales linearly in the requested duration
(`rexPrice m = m * rexPrice 1`). -/
theorem rexPriceSpec (m cpuCost totalRent totalUnlent shifted : ℚ)
    (hm : m ≠ 0) (hc : cpuCost ≠ 0) (hsh : shifted ≠ 0) :
    rexPrice m cpuCost (some ⟨totalRent, totalUnlent⟩) shifted =
      m / (1 / (totalRent / totalUnlent) * cpuCost * (shifted / 100)) ∧
    rexPrice m cpuCost (some ⟨totalRent, totalUnlent⟩) shifted =
      m * rexPrice 1 cpuCost (some ⟨totalRent, totalUnlent⟩) shifted := by
  simp only [rexPrice, if_pos (And.intro hm (And.intro hc hsh)),
    if_pos (And.intro (one_ne_zero : (1 : ℚ) ≠ 0) (And.intro hc hsh))]
  constructor <;> ring

/-- Concrete instance of claim C9's theorem. -/
theorem rexPriceSpecWitness :
    rexPrice 2 1 (some ⟨1, 1⟩) 100 = 2 / (1 / (1 / 1) * 1 * (100 / 100)) ∧
    rexPrice 2 1 (some ⟨1, 1⟩) 100 = 2 * rexPrice 1 1 (some ⟨1, 1⟩) 100 :=
  rexPriceSpec 2 1 1 1 100 (by norm_num) (by norm_num) (by norm_num)

/-- Claim C5: for every cached record delivered by `loadAccount`, the
`stale` flag of the first callback value is `true` exactly when the cache
age strictly exceeds the max-age threshold,
`stale = (now - updated > maxAge)`, with `maxAge = 60 * 1000` ms. -/
theorem loadAccountStaleIff (db : Db) (name chainId : String) (refresh : Bool)
    (now : ℤ) (f : AccountObject) (row : AccountRow) (resp : AccountResponse)
    (hrow : dbGet db (accountKey name chainId) = some row)
    (hresp : (loadAccount db name chainId refresh now f).calls.head? = some resp) :
    (resp.stale = true ↔ now - row.updated > maxAge) ∧ maxAge = 60 * 1000 := by
  refine ⟨?_, rfl⟩
  simp only [loadAccount, hrow] at hresp
  by_cases hc : (decide (now - row.updated > maxAge) || refresh) = true
  · rw [if_pos hc] at hresp
    simp only [List.head?_cons, Option.some.injEq] at hresp
    subst hresp
    simp
  · rw [if_neg hc] at hresp
    simp only [List.head?_cons, Option.some.injEq] at hresp
    subst hresp
    simp

/-- Concrete instance of claim C5's theorem: a 100 000 ms old row is
reported stale. -/
theorem loadAccountStaleIffWitness :
    (((⟨some (fromRaw (patchVoter ⟨"a", none, "x"⟩)), true⟩ : AccountResponse).stale = true ↔
      (100000 : ℤ) - 0 > maxAge) ∧ maxAge = 60 * 1000) :=
  loadAccountStaleIff [("c-a", ⟨⟨"a", none, "x"⟩, 0⟩)] "a" "c" false 100000
    ⟨"a", none, "y"⟩ ⟨⟨"a", none, "x"⟩, 0⟩ ⟨some (fromRaw (patchVoter ⟨"a", none, "x"⟩)), true⟩
    (by rfl) (by rfl)

/-- Claim C8: storing an account and then loading it back under the same
`(name, chainId)` key delivers to the callback (first invocation) an
account structurally equal to the one stored — the voter-info patch and
the raw/typed coercions cancel on a typed account — with only the
`stale` wrapper field computed from the timestamps. -/
theorem storeLoadRoundtrip (db : Db) (a : AccountObject) (chainId : String)
    (tstore tload : ℤ) (refresh : Bool) (f : AccountObject) :
    (loadAccount (storeAccount db a chainId tstore) a.account_name chainId refresh tload
      f).calls.head? =
      some ⟨some a, decide (tload - tstore > maxAge)⟩ := by
  have hget : dbGet (storeAccount db a chainId tstore) (accountKey a.account_name chainId) =
      some ⟨objectify a, tstore⟩ := dbGet_dbPut_same db _ _
  simp only [loadAccount, hget, fromRaw_patchVoter_objectify]
  split <;> rfl

/-- Claim C2: the `loadAccount` contract.  Writing
`L = loadAccount db name chainId refresh now f` (with `f` the account the
network would return, `f.account_name = name`):
(1) if a cached record exists, the callback sequence starts with the
cached account and its staleness, followed by the fetch result only when
a fetch happens — the cached value is always delivered first;
(2) a network fetch is issued iff no record exists, or `refresh` is set,
or the cached record is stale;
(3) on fetch, the fresh record is persisted under the same key
(overwriting the prior row) with the fetch time, and the callback is
invoked last with `{account: fresh, stale: false}`;
(4) a subsequent `loadAccount` for the same key with cache age under
`maxAge` and `refresh = false` issues no network fetch. -/
theorem loadAccountContract (db : Db) (name chainId : String) (refresh : Bool)
    (now : ℤ) (f : AccountObject) (hf : f.account_name = name) :
    (∀ row, dbGet db (accountKey name chainId) = some row →
      (loadAccount db name chainId refresh now f).calls =
        (⟨some (fromRaw (patchVoter row.account)), decide (now - row.updated > maxAge)⟩ :
            AccountResponse) ::
          (if (decide (now - row.updated > maxAge) || refresh) = true then
            [(⟨some f, false⟩ : AccountResponse)] else [])) ∧
    ((loadAccount db name chainId refresh now f).didFetch = true ↔
      dbGet db (accountKey name chainId) = none ∨ refresh = true ∨
        ∃ row, dbGet db (accountKey name chainId) = some row ∧ now - row.updated > maxAge) ∧
    ((loadAccount db name chainId refresh now f).didFetch = true →
      dbGet (loadAccount db name chainId refresh now f).db (accountKey name chainId) =
        some ⟨objectify f, now⟩ ∧
      (loadAccount db name chainId refresh now f).calls.getLast? =
        some (⟨some f, false⟩ : AccountResponse)) ∧
    (∀ now' f', (loadAccount db name chainId refresh now f).didFetch = true →
      now' - now < maxAge →
      (loadAccount (loadAccount db name chainId refresh now f).db name chainId false now'
        f').didFetch = false) := by
  have hkey : accountKey f.account_name chainId = accountKey name chainId := by rw [hf]
  have hstore : dbGet (storeAccount db f chainId now) (accountKey name chainId) =
      some ⟨objectify f, now⟩ := by
    rw [storeAccount, ← hkey]
    exact dbGet_dbPut_same db _ _
  have hsecond : ∀ now' f', now' - now < maxAge →
      (loadAccount (storeAccount db f chainId now) name chainId false now'
        f').didFetch = false := by
    intro now' f' hage
    have hns : decide (now' - now > maxAge) = false := by
      simp only [decide_eq_false_iff_not, not_lt]
      linarith
    simp only [loadAccount, hstore, hns, Bool.or_false, Bool.false_eq_true, if_false]
  cases hdb : dbGet db (accountKey name chainId) with
  | none =>
    refine ⟨?_, ?_, ?_, ?_⟩
    · intro row hrow
      exact absurd hrow (by simp)
    · simp only [loadAccount, hdb]
      simp
    · intro _
      simp only [loadAccount, hdb]
      exact ⟨hstore, rfl⟩
    · intro now' f' _ hage
      have hLdb : (loadAccount db name chainId refresh now f).db =
          storeAccount db f chainId now := by
        simp only [loadAccount, hdb]
      rw [hLdb]
      exact hsecond now' f' hage
  | some row =>
    by_cases hc : (decide (now - row.updated > maxAge) || refresh) = true
    · refine ⟨?_, ?_, ?_, ?_⟩
      · intro row' hrow'
        rw [Option.some.injEq] at hrow'
        subst hrow'
        simp only [loadAccount, hdb, if_pos hc, if_pos hc]
      · simp only [loadAccount, hdb, if_pos hc, true_iff]
        rcases Bool.or_eq_true_iff.mp hc with hstale | hrefresh
        · exact Or.inr (Or.inr ⟨row, rfl, of_decide_eq_true hstale⟩)
        · exact Or.inr (Or.inl hrefresh)
      · intro _
        simp only [loadAccount, hdb, if_pos hc]
        exact ⟨hstore, rfl⟩
      · intro now' f' _ hage
        have hLdb : (loadAccount db name chainId refresh now f).db =
            storeAccount db f chainId now := by
          simp only [loadAccount, hdb, if_pos hc]
        rw [hLdb]
        exact hsecond now' f' hage
    · refine ⟨?_, ?_, ?_, ?_⟩
      · intro row' hrow'
        rw [Option.some.injEq] at hrow'
        subst hrow'
        simp only [loadAccount, hdb, if_neg hc, if_neg hc]
      · simp only [loadAccount, hdb, if_neg hc]
        constructor
        · intro h
          exact absurd h (by simp)
        · intro h
          rcases h with hnone | hrefresh | ⟨row', hrow', hstale⟩
          · exact absurd hnone (by simp)
          · exact absurd hc (by simp [hrefresh])
          · rw [Option.some.injEq] at hrow'
            subst hrow'
            exact absurd hc (by simp [hstale])
      · intro h
        rw [show (loadAccount db name chainId refresh now f).didFetch = false by
          simp only [loadAccount, hdb, if_neg hc]] at h
        exact absurd h (by simp)
      · intro now' f' h _
        rw [show (loadAccount db name chainId refresh now f).didFetch = false by
          simp only [loadAccount, hdb, if_neg hc]] at h
        exact absurd h (by simp)

/-- Concrete instance of claim C2's theorem: a call against a 100 000 ms
old row (stale) fetches, delivers the cached row first and the fresh
account last, persists the fresh row, and a second call 30 000 ms later
does not fetch. -/
theorem loadAccountContractWitness :
    (loadAccount [("c-a", ⟨⟨"a", none, "x"⟩, 0⟩)] "a" "c" false 100000
      ⟨"a", none, "z"⟩).calls =
      [⟨some (fromRaw (patchVoter ⟨"a", none, "x"⟩)), true⟩,
        ⟨some ⟨"a", none, "z"⟩, false⟩] ∧
    (loadAccount [("c-a", ⟨⟨"a", none, "x"⟩, 0⟩)] "a" "c" false 100000
      ⟨"a", none, "z"⟩).didFetch = true ∧
    dbGet (loadAccount [("c-a", ⟨⟨"a", none, "x"⟩, 0⟩)] "a" "c" false 100000
      ⟨"a", none, "z"⟩).db (accountKey "a" "c") =
      some ⟨objectify ⟨"a", none, "z"⟩, 100000⟩ ∧
    (loadAccount (loadAccount [("c-a", ⟨⟨"a", none, "x"⟩, 0⟩)] "a" "c" false 100000
      ⟨"a", none, "z"⟩).db "a" "c" false 130000 ⟨"a", none, "w"⟩).didFetch = false := by
  have h := loadAccountContract [("c-a", ⟨⟨"a", none, "x"⟩, 0⟩)] "a" "c" false 100000
    ⟨"a", none, "z"⟩ rfl
  have hfetch : (loadAccount [("c-a", ⟨⟨"a", none, "x"⟩, 0⟩)] "a" "c" false 100000
      ⟨"a", none, "z"⟩).didFetch = true :=
    h.2.1.mpr (Or.inr (Or.inr ⟨⟨⟨"a", none, "x"⟩, 0⟩, rfl, by norm_num [maxAge]⟩))
  refine ⟨?_, hfetch, (h.2.2.1 hfetch).1, h.2.2.2 130000 ⟨"a", none, "w"⟩ hfetch
    (by norm_num [maxAge])⟩
  rw [h.1 ⟨⟨"a", none, "x"⟩, 0⟩ rfl]
  norm_num [maxAge]

/-! ## makeTokenKey: separator and lower-casing lemmas -/

/-- The ASCII lower-casing map only produces `'-'` from `'-'` itself. -/
theorem jsLowerChar_eq_dash {ch : Char} (h : jsLowerChar ch = '-') : ch = '-' := by
  by_contra hne
  unfold jsLowerChar at h
  split at h
  case isTrue hu =>
    have h1 : ('A' : Char).toNat ≤ ch.toNat := hu.1
    have h2 : ch.toNat ≤ ('Z' : Char).toNat := hu.2
    have hA : ('A' : Char).toNat = 65 := by decide
    have hZ : ('Z' : Char).toNat = 90 := by decide
    have hvalid : (ch.toNat + 32).isValidChar := by
      left
      omega
    have hto := congrArg Char.toNat h
    have hred : (Char.ofNat (ch.toNat + 32)).toNat = ch.toNat + 32 := by
      unfold Char.ofNat
      rw [dif_pos hvalid]
      unfold Char.ofNatAux Char.toNat
      simp [UInt32.toNat, BitVec.toNat_ofNatLt]
    rw [hred] at hto
    have hdash : ('-' : Char).toNat = 45 := by decide
    omega
  case isFalse _ => exact hne h

/-- Lower-casing a dash-free component keeps it dash-free. -/
theorem dash_not_mem_map_jsLowerChar {l : List Char} (h : '-' ∉ l) :
    '-' ∉ l.map jsLowerChar := by
  intro hmem
  rcases List.mem_map.mp hmem with ⟨c, hc, hlc⟩
  exact h (jsLowerChar_eq_dash hlc ▸ hc)

/-- Splitting at a separator that occurs in neither prefix is unique. -/
theorem append_dash_cons_inj {a b r s : List Char} (ha : '-' ∉ a) (hb : '-' ∉ b)
    (h : a ++ '-' :: r = b ++ '-' :: s) : a = b ∧ r = s := by
  induction a generalizing b with
  | nil =>
    cases b with
    | nil => simpa using h
    | cons y ys =>
      simp only [List.nil_append, List.cons_append, List.cons.injEq] at h
      exact absurd (h.1 ▸ List.mem_cons_self y ys) hb
  | cons x xs ih =>
    cases b with
    | nil =>
      simp only [List.cons_append, List.nil_append, List.cons.injEq] at h
      exact absurd (h.1 ▸ List.mem_cons_self x xs) ha
    | cons y ys =>
      simp only [List.cons_append, List.cons.injEq] at h
      obtain ⟨hxy, htail⟩ := h
      have ha' : '-' ∉ xs := fun hm => ha (List.mem_cons_of_mem _ hm)
      have hb' : '-' ∉ ys := fun hm => hb (List.mem_cons_of_mem _ hm)
      obtain ⟨h1, h2⟩ := ih ha' hb' htail
      exact ⟨by rw [hxy, h1], h2⟩

/-- `makeTokenKey` rewritten with the separators outside the map. -/
theorem makeTokenKey_eq (a b c : List Char) :
    makeTokenKey a b c =
      a.map jsLowerChar ++ '-' :: (b.map jsLowerChar ++ '-' :: c.map jsLowerChar) := by
  have hdash : jsLowerChar '-' = '-' := by decide
  simp [makeTokenKey, hdash]

/-- Claim C10: over components that do not contain the separator `'-'`
(the actual domains — hex chain ids, Antelope account names, symbol
codes — never do), `makeTokenKey` produces equal keys exactly for tuples
that agree up to letter case: tuples differing only in case (same
lower-casing) collide, and otherwise-distinct tuples get distinct keys. -/
theorem makeTokenKeySpec (a b c a' b' c' : List Char)
    (ha : '-' ∉ a) (hb : '-' ∉ b) (ha' : '-' ∉ a') (hb' : '-' ∉ b') :
    makeTokenKey a b c = makeTokenKey a' b' c' ↔
      (a.map jsLowerChar = a'.map jsLowerChar ∧
        b.map jsLowerChar = b'.map jsLowerChar ∧
        c.map jsLowerChar = c'.map jsLowerChar) := by
  rw [makeTokenKey_eq, makeTokenKey_eq]
  constructor
  · intro h
    obtain ⟨h1, h2⟩ :=
      append_dash_cons_inj (dash_not_mem_map_jsLowerChar ha)
        (dash_not_mem_map_jsLowerChar ha') h
    obtain ⟨h3, h4⟩ :=
      append_dash_cons_inj (dash_not_mem_map_jsLowerChar hb)
        (dash_not_mem_map_jsLowerChar hb') h2
    exact ⟨h1, h3, h4⟩
  · intro ⟨h1, h2, h3⟩
    rw [h1, h2, h3]

/-- Concrete instance of claim C10's theorem: `"EOS"` and `"eos"`
produce the same key, and a genuinely different name produces a
different key (the backward direction of the iff shown on concrete
data). -/
theorem makeTokenKeySpecWitness :
    (makeTokenKey "ab12".toList "eosio.token".toList "EOS".toList =
      makeTokenKey "ab12".toList "eosio.token".toList "eos".toList ↔
      ("ab12".toList.map jsLowerChar = "ab12".toList.map jsLowerChar ∧
        "eosio.token".toList.map jsLowerChar = "eosio.token".toList.map jsLowerChar ∧
        "EOS".toList.map jsLowerChar = "eos".toList.map jsLowerChar)) ∧
    makeTokenKey "ab12".toList "eosio.token".toList "EOS".toList =
      makeTokenKey "ab12".toList "eosio.token".toList "eos".toList := by
  have h := makeTokenKeySpec "ab12".toList "eosio.token".toList "EOS".toList
    "ab12".toList "eosio.token".toList "eos".toList
    (by decide) (by decide) (by decide) (by decide)
  exact ⟨h, h.mpr (by decide)⟩

end Wallet
